import Mathlib

/-!
Verification of the solana-buyer backtesting engine (src/backtesting/main.py)
against its natural-language specification.

The script maps two tables, `pool` and `liquidity`, whose columns are listed in
the schema comment at the top of src/backtesting/main.py; we embed the rows as
Lean structures and the database as lists of rows.  The function `get_pnl` and
the module-level driver are embedded from the source.  The trade simulation and
aggregation algorithms described in the spec (sections 4.2 and 4.3) are absent
from the source (get_pnl only prints timestamps); those are modelled from the
spec, and each such definition is marked `Modelled from the spec:`.
-/

/-- Row of the `pool` table (schema comment in src/backtesting/main.py):
id, target_token_mint, target_token_pool_vault, sol_pool_vault, rugged,
started_indexing_at, done_indexing. -/
structure Pool where
  id : ℤ
  target_token_mint : String
  target_token_pool_vault : String
  sol_pool_vault : String
  rugged : Bool
  started_indexing_at : ℤ
  done_indexing : Bool
deriving Repr, DecidableEq

/-- Row of the `liquidity` table (schema comment in src/backtesting/main.py):
id, pool_id, ts, target_token_liquidity, sol_liquidity. -/
structure Liquidity where
  id : ℤ
  pool_id : ℤ
  ts : ℤ
  target_token_liquidity : ℤ
  sol_liquidity : ℤ
deriving Repr, DecidableEq

/-- The sqlite database `liquidities.db`: the two mapped tables, rows in
arbitrary storage order. -/
structure DB where
  pools : List Pool
  liquidities : List Liquidity
deriving Repr, DecidableEq

instance : DecidableRel (fun a b : Liquidity => a.ts ≤ b.ts) :=
  fun a b => inferInstanceAs (Decidable (a.ts ≤ b.ts))

instance : IsTotal Liquidity (fun a b => a.ts ≤ b.ts) :=
  ⟨fun a b => le_total a.ts b.ts⟩

instance : IsTrans Liquidity (fun a b => a.ts ≤ b.ts) :=
  ⟨fun _ _ _ h1 h2 => le_trans h1 h2⟩

/-- The query issued by get_pnl:
`select(Liquidity).where(Liquidity.pool_id == pool.id).order_by(Liquidity.ts.asc())` —
the rows of the liquidity table belonging to the pool, sorted ascending by ts.
Sorting is part of the query itself, so the result is ordered no matter how the
rows are stored. -/
def liquiditiesQuery (db : DB) (poolId : ℤ) : List Liquidity :=
  List.insertionSort (fun a b => a.ts ≤ b.ts)
    (db.liquidities.filter (fun r => r.pool_id == poolId))

/-- Embedding of `get_pnl(session, pool, buy_time, sell_at_multiplier)`
(src/backtesting/main.py lines 36-41).  It executes the sorted liquidity query,
prints `liquidity.ts` for each row, and falls off the end (Python returns
`None`).  The value is `((printed timestamps, returned value), final database
state)`: the session is only read, so the database component is returned
unchanged. -/
def get_pnl (db : DB) (pool : Pool) (buy_time : ℤ) (sell_at_multiplier : ℤ) :
    (List ℤ × Option ℚ) × DB :=
  let liquidities := liquiditiesQuery db pool.id
  ((liquidities.map (fun r => r.ts), none), db)

/-- Result of running the module-level driver: it either crashes (when the pool
table is empty, `pools.first()` is `None` and `None[0]` raises) or prints the
first pool and runs get_pnl on it with `buy_time = 1`, `sell_at_multiplier = 2`. -/
inductive DriverResult where
  | crash : DriverResult
  | ran (printedPool : Pool) (printedTs : List ℤ) : DriverResult
deriving Repr, DecidableEq

/-- Embedding of the module-level driver (src/backtesting/main.py lines 44-52):
`select(Pool)`, take the first row, print it, call
`get_pnl(session, pool, 1, 2)`.  The database state is threaded through and
returned. -/
def runDriver (db : DB) : DriverResult × DB :=
  match db.pools.head? with
  | none => (.crash, db)
  | some pool =>
    let r := get_pnl db pool 1 2
    (.ran pool r.1.1, r.2)

/-- Modelled from the spec: PricePoint (section 3) — the engine-internal
derived pair `(ts, price)`.  `price = none` is the sentinel for a collapsed
point (snapshot with `target_token_liquidity <= 0`), produced instead of a
numeric price.  Absent from src/: the price-series construction is not
implemented there. -/
structure PricePoint where
  ts : ℤ
  price : Option ℚ
deriving Repr, DecidableEq

/-- Modelled from the spec: the exit reasons of a completed trade
(section 3, TradeOutcome). -/
inductive ExitReason where
  | take_profit : ExitReason
  | rug : ExitReason
  | unresolved : ExitReason
deriving Repr, DecidableEq

/-- Modelled from the spec: TradeOutcome (section 3) — either `no_data`
(no usable entry, undefined return) or a trade with exit reason, entry
timestamp/price, exit timestamp/price (no price at a collapsed exit), and
realized return. -/
inductive TradeOutcome where
  | no_data : TradeOutcome
  | trade (reason : ExitReason) (entryTs : ℤ) (entryPrice : ℚ)
      (exitTs : ℤ) (exitPrice : Option ℚ) (ret : ℚ) : TradeOutcome
deriving Repr, DecidableEq

/-- True when the outcome is a trade whose reason is rug or unresolved. -/
def TradeOutcome.isRugOrUnresolved : TradeOutcome → Bool
  | .trade .rug _ _ _ _ _ => true
  | .trade .unresolved _ _ _ _ _ => true
  | _ => false

/-- True when the outcome is a trade whose reason is rug. -/
def TradeOutcome.isRug : TradeOutcome → Bool
  | .trade .rug _ _ _ _ _ => true
  | _ => false

/-- True on `no_data`. -/
def TradeOutcome.isNoData : TradeOutcome → Bool
  | .no_data => true
  | _ => false

/-- Realized return of a closed trade (take_profit or rug), none otherwise. -/
def TradeOutcome.closedReturn : TradeOutcome → Option ℚ
  | .trade .take_profit _ _ _ _ r => some r
  | .trade .rug _ _ _ _ r => some r
  | _ => none

/-- Realized mark-to-last return of an unresolved trade, none otherwise. -/
def TradeOutcome.unresolvedReturn : TradeOutcome → Option ℚ
  | .trade .unresolved _ _ _ _ r => some r
  | _ => none

/-- Modelled from the spec: entry selection (section 4.2 step 1) — the first
PricePoint whose ts is at least the entry time, together with the remainder of
the series after it; none when no such point exists. -/
def entrySplit (entryTime : ℤ) : List PricePoint → Option (PricePoint × List PricePoint)
  | [] => none
  | p :: rest => if entryTime ≤ p.ts then some (p, rest) else entrySplit entryTime rest

/-- Modelled from the spec: the exit scan (section 4.2 steps 3-4), starting
from the point after entry.  A collapsed point exits with reason rug and
return -1; a point at or above `entryPrice * m` exits with reason take_profit
and return `m - 1`; otherwise the scan continues, remembering the last point
seen.  On exhaustion: if the pool is done indexing, exit at the last available
price with reason unresolved and return `last / entryPrice - 1`, else no_data. -/
def exitScan (done : Bool) (entryTs : ℤ) (entryPrice : ℚ) (m : ℚ)
    (lastTs : ℤ) (lastPrice : ℚ) : List PricePoint → TradeOutcome
  | [] =>
    if done then
      .trade .unresolved entryTs entryPrice lastTs (some lastPrice)
        (lastPrice / entryPrice - 1)
    else .no_data
  | p :: rest =>
    match p.price with
    | none => .trade .rug entryTs entryPrice p.ts none (-1)
    | some q =>
      if entryPrice * m ≤ q then
        .trade .take_profit entryTs entryPrice p.ts (some q) (m - 1)
      else exitScan done entryTs entryPrice m p.ts q rest

/-- Modelled from the spec: TradeSimulator.simulate (section 4.2) — absent
from src/ (get_pnl is a stub that only prints timestamps).  Entry is the first
point with `ts >= pool.started_indexing_at + buy_delay` (no_data when none
exists); a collapsed entry is no_data; then the exit scan runs on the points
after entry. -/
def simulate (pool : Pool) (series : List PricePoint) (buy_delay : ℤ) (m : ℚ) :
    TradeOutcome :=
  match entrySplit (pool.started_indexing_at + buy_delay) series with
  | none => .no_data
  | some (entry, rest) =>
    match entry.price with
    | none => .no_data
    | some ep => exitScan pool.done_indexing entry.ts ep m entry.ts ep rest

/-- Modelled from the spec: the summary buckets of PnLAggregator (section 4.3):
per-pool outcomes, total eligible pools, ground-truth rugged count,
simulator-observed rug count, no_data count, and the separately reported
closed-trade and unresolved (mark-to-last) return buckets from which the
summary statistics are computed. -/
structure Summary where
  outcomes : List (Pool × TradeOutcome)
  total_pools : ℕ
  rugged_count : ℕ
  rug_outcome_count : ℕ
  no_data_count : ℕ
  closed_returns : List ℚ
  unresolved_returns : List ℚ
deriving Repr, DecidableEq

/-- Modelled from the spec: PnLAggregator.aggregate (section 4.3) — absent
from src/ (the driver only prints the first pool; its aggregation loop is
commented out).  Filters to pools with `done_indexing = true`, simulates each
eligible pool on the price series supplied by the data source, and fills the
summary buckets. -/
def aggregate (pools : List Pool) (seriesOf : ℤ → List PricePoint)
    (buy_delay : ℤ) (m : ℚ) : Summary :=
  let elig := pools.filter (fun p => p.done_indexing)
  let outs := elig.map (fun p => (p, simulate p (seriesOf p.id) buy_delay m))
  ⟨outs,
   elig.length,
   (elig.filter (fun p => p.rugged)).length,
   (outs.filter (fun po => po.2.isRug)).length,
   (outs.filter (fun po => po.2.isNoData)).length,
   outs.filterMap (fun po => po.2.closedReturn),
   outs.filterMap (fun po => po.2.unresolvedReturn)⟩

/-- Modelled from the spec: the fatal configuration error at the call boundary
(section 7): a non-positive target_multiplier. -/
inductive ConfigError where
  | non_positive_multiplier : ConfigError
deriving Repr, DecidableEq

/-- Modelled from the spec: the aggregate call boundary (sections 4.3 and 7) —
absent from src/.  A non-positive target_multiplier is rejected before any
simulation starts; otherwise aggregation runs to completion (per-pool
simulation is total, so no per-pool error aborts the run). -/
def aggregateChecked (pools : List Pool) (seriesOf : ℤ → List PricePoint)
    (buy_delay : ℤ) (m : ℚ) : Except ConfigError Summary :=
  if m ≤ 0 then .error .non_positive_multiplier
  else .ok (aggregate pools seriesOf buy_delay m)

/-- Helper: entry selection finds nothing when every point is strictly before
the entry time. -/
theorem entrySplit_eq_none_of_all_lt (t : ℤ) :
    ∀ l : List PricePoint, (∀ q ∈ l, q.ts < t) → entrySplit t l = none
  | [], _ => rfl
  | p :: rest, h => by
    have hp := h p (List.mem_cons_self p rest)
    simp only [entrySplit, if_neg (not_le.mpr hp)]
    exact entrySplit_eq_none_of_all_lt t rest (fun q hq => h q (List.mem_cons_of_mem p hq))

/-- Helper: entry selection returns the first point at or past the entry time,
together with the points after it. -/
theorem entrySplit_append (t : ℤ) (p : PricePoint) (rest : List PricePoint)
    (hp : t ≤ p.ts) :
    ∀ pre : List PricePoint, (∀ q ∈ pre, q.ts < t) →
      entrySplit t (pre ++ p :: rest) = some (p, rest)
  | [], _ => by simp [entrySplit, if_pos hp]
  | q :: pre, h => by
    have hq := h q (List.mem_cons_self q pre)
    simp only [List.cons_append, entrySplit, if_neg (not_le.mpr hq)]
    exact entrySplit_append t p rest hp pre (fun r hr => h r (List.mem_cons_of_mem q hr))

/-- Helper: the selected entry point is a point of the series. -/
theorem entrySplit_mem (t : ℤ) :
    ∀ (l : List PricePoint) (p : PricePoint) (rest : List PricePoint),
      entrySplit t l = some (p, rest) → p ∈ l
  | [], p, rest, h => by simp [entrySplit] at h
  | q :: l, p, rest, h => by
    by_cases ht : t ≤ q.ts
    · simp only [entrySplit, if_pos ht, Option.some.injEq, Prod.mk.injEq] at h
      exact h.1 ▸ List.mem_cons_self q l
    · simp only [entrySplit, if_neg ht] at h
      exact List.mem_cons_of_mem q (entrySplit_mem t l p rest h)

/-- Helper: any trade produced by the exit scan carries the entry timestamp and
entry price it was started with. -/
theorem exitScan_trade_entry (done : Bool) (eTs : ℤ) (ep m : ℚ)
    (l : List PricePoint) :
    ∀ (lTs : ℤ) (lPr : ℚ) (reason : ExitReason) (et : ℤ) (ep2 : ℚ)
      (xt : ℤ) (xp : Option ℚ) (r : ℚ),
      exitScan done eTs ep m lTs lPr l = .trade reason et ep2 xt xp r →
      et = eTs ∧ ep2 = ep := by
  induction l with
  | nil =>
    intro lTs lPr reason et ep2 xt xp r h
    simp only [exitScan] at h
    split at h
    · injection h with g1 g2 g3 g4 g5 g6
      exact ⟨g2.symm, g3.symm⟩
    · simp at h
  | cons p rest ih =>
    intro lTs lPr reason et ep2 xt xp r h
    cases hq : p.price with
    | none =>
      simp only [exitScan, hq] at h
      injection h with g1 g2 g3 g4 g5 g6
      exact ⟨g2.symm, g3.symm⟩
    | some q =>
      by_cases h1 : ep * m ≤ q
      · simp only [exitScan, hq, if_pos h1] at h
        injection h with g1 g2 g3 g4 g5 g6
        exact ⟨g2.symm, g3.symm⟩
      · simp only [exitScan, hq, if_neg h1] at h
        exact ih p.ts q reason et ep2 xt xp r h

/-- Helper: when every point up to the first collapsed point is non-collapsed
and below the take-profit threshold, the exit scan stops at the collapsed point
with reason rug and return -1. -/
theorem exitScan_rug (done : Bool) (eTs : ℤ) (ep m : ℚ) (c : PricePoint)
    (rest : List PricePoint) (hc : c.price = none) :
    ∀ mid : List PricePoint, (∀ q ∈ mid, ∃ qp, q.price = some qp ∧ qp < ep * m) →
    ∀ (lTs : ℤ) (lPr : ℚ),
      exitScan done eTs ep m lTs lPr (mid ++ c :: rest) =
        .trade .rug eTs ep c.ts none (-1)
  | [], _, lTs, lPr => by
    simp only [List.nil_append, exitScan, hc]
  | p :: mid, h, lTs, lPr => by
    obtain ⟨qp, hqp, hlt⟩ := h p (List.mem_cons_self p mid)
    simp only [List.cons_append, exitScan, hqp, if_neg (not_le.mpr hlt)]
    exact exitScan_rug done eTs ep m c rest hc mid
      (fun q hq => h q (List.mem_cons_of_mem p hq)) p.ts qp

/-- Helper: when a point at or past the take-profit threshold is reached
before any collapsed point, the exit scan exits with reason take_profit and
return m - 1. -/
theorem exitScan_tp (done : Bool) (eTs : ℤ) (ep m : ℚ) (tp : PricePoint)
    (rest : List PricePoint) (tpp : ℚ) (htp : tp.price = some tpp)
    (hge : ep * m ≤ tpp) :
    ∀ mid : List PricePoint, (∀ q ∈ mid, ∃ qp, q.price = some qp) →
    ∀ (lTs : ℤ) (lPr : ℚ), ∃ (xt : ℤ) (xp : Option ℚ),
      exitScan done eTs ep m lTs lPr (mid ++ tp :: rest) =
        .trade .take_profit eTs ep xt xp (m - 1)
  | [], _, lTs, lPr =>
    ⟨tp.ts, some tpp, by simp only [List.nil_append, exitScan, htp, if_pos hge]⟩
  | p :: mid, h, lTs, lPr => by
    obtain ⟨qp, hqp⟩ := h p (List.mem_cons_self p mid)
    by_cases hq : ep * m ≤ qp
    · exact ⟨p.ts, some qp, by simp only [List.cons_append, exitScan, hqp, if_pos hq]⟩
    · obtain ⟨xt, xp, hx⟩ := exitScan_tp done eTs ep m tp rest tpp htp hge mid
        (fun q hqm => h q (List.mem_cons_of_mem p hqm)) p.ts qp
      exact ⟨xt, xp, by
        simp only [List.cons_append, exitScan, hqp, if_neg hq]
        exact hx⟩

/-- Last (ts, price) pair seen while scanning a list of priced points,
starting from a default. -/
def lastSeen (d : ℤ × ℚ) : List PricePoint → ℤ × ℚ
  | [] => d
  | q :: rest =>
    match q.price with
    | some qp => lastSeen (q.ts, qp) rest
    | none => lastSeen d rest

/-- Helper: when no point triggers an exit, the scan returns the unresolved
mark-to-last trade when the pool is done indexing, and no_data otherwise. -/
theorem exitScan_exhausted (done : Bool) (eTs : ℤ) (ep m : ℚ) :
    ∀ l : List PricePoint, (∀ q ∈ l, ∃ qp, q.price = some qp ∧ qp < ep * m) →
    ∀ (lTs : ℤ) (lPr : ℚ),
      exitScan done eTs ep m lTs lPr l =
        if done then
          .trade .unresolved eTs ep (lastSeen (lTs, lPr) l).1
            (some (lastSeen (lTs, lPr) l).2) ((lastSeen (lTs, lPr) l).2 / ep - 1)
        else .no_data
  | [], _, lTs, lPr => by simp [exitScan, lastSeen]
  | p :: rest, h, lTs, lPr => by
    obtain ⟨qp, hqp, hlt⟩ := h p (List.mem_cons_self p rest)
    simp only [exitScan, lastSeen, hqp, if_neg (not_le.mpr hlt)]
    exact exitScan_exhausted done eTs ep m rest
      (fun q hq => h q (List.mem_cons_of_mem p hq)) p.ts qp

/-- Helper: lastSeen over a list of priced points is the last point of the
series headed by the starting point. -/
theorem lastSeen_getLast :
    ∀ (tail : List PricePoint) (p : PricePoint) (pp : ℚ), p.price = some pp →
      (∀ q ∈ tail, ∃ qp, q.price = some qp) →
      ∃ (lastp : PricePoint) (lp : ℚ),
        (p :: tail).getLast? = some lastp ∧ lastp.price = some lp ∧
        lastSeen (p.ts, pp) tail = (lastp.ts, lp)
  | [], p, pp, hp, _ => ⟨p, pp, by simp, hp, rfl⟩
  | q :: tail, p, pp, hp, h => by
    obtain ⟨qp, hqp⟩ := h q (List.mem_cons_self q tail)
    obtain ⟨lastp, lp, h1, h2, h3⟩ :=
      lastSeen_getLast tail q qp hqp (fun r hr => h r (List.mem_cons_of_mem q hr))
    refine ⟨lastp, lp, ?_, h2, ?_⟩
    · rw [List.getLast?_cons_cons]
      exact h1
    · simp only [lastSeen, hqp]
      exact h3

/-- Helper: raising the threshold preserves rug/unresolved outcomes of the
exit scan. -/
theorem exitScan_mono (done : Bool) (eTs : ℤ) (ep m1 m2 : ℚ)
    (hmm : ep * m1 ≤ ep * m2) :
    ∀ (l : List PricePoint) (lTs : ℤ) (lPr : ℚ),
      (exitScan done eTs ep m1 lTs lPr l).isRugOrUnresolved = true →
      (exitScan done eTs ep m2 lTs lPr l).isRugOrUnresolved = true := by
  intro l
  induction l with
  | nil =>
    intro lTs lPr h
    cases done <;> simp_all [exitScan, TradeOutcome.isRugOrUnresolved]
  | cons p rest ih =>
    intro lTs lPr h
    cases hq : p.price with
    | none => simp [exitScan, hq, TradeOutcome.isRugOrUnresolved]
    | some q =>
      by_cases h1 : ep * m1 ≤ q
      · simp [exitScan, hq, if_pos h1, TradeOutcome.isRugOrUnresolved] at h
      · have h2 : ¬ ep * m2 ≤ q := fun hc => h1 (le_trans hmm hc)
        simp only [exitScan, hq, if_neg h1] at h
        simp only [exitScan, hq, if_neg h2]
        exact ih p.ts q h

/-- C1: simulate selects as entry the first PricePoint whose ts is at least
pool.started_indexing_at + buy_delay — any trade it produces carries that
point's timestamp and price — and returns outcome no_data whenever no such
point exists, including when the series is empty. -/
theorem simulate_entry_selection (pool : Pool) (delay : ℤ) (m : ℚ) :
    (∀ series : List PricePoint,
      (∀ q ∈ series, q.ts < pool.started_indexing_at + delay) →
      simulate pool series delay m = .no_data) ∧
    (∀ (pre rest : List PricePoint) (p : PricePoint),
      (∀ q ∈ pre, q.ts < pool.started_indexing_at + delay) →
      pool.started_indexing_at + delay ≤ p.ts →
      ∀ (reason : ExitReason) (et : ℤ) (ep : ℚ) (xt : ℤ) (xp : Option ℚ) (r : ℚ),
        simulate pool (pre ++ p :: rest) delay m = .trade reason et ep xt xp r →
        et = p.ts ∧ p.price = some ep) := by
  constructor
  · intro series hall
    simp only [simulate, entrySplit_eq_none_of_all_lt _ series hall]
  · intro pre rest p hpre hp reason et ep xt xp r h
    cases hq : p.price with
    | none =>
      simp only [simulate, entrySplit_append _ p rest hp pre hpre, hq] at h
      exact TradeOutcome.noConfusion h
    | some q =>
      simp only [simulate, entrySplit_append _ p rest hp pre hpre, hq] at h
      obtain ⟨h1, h2⟩ := exitScan_trade_entry pool.done_indexing p.ts q m rest
        p.ts q reason et ep xt xp r h
      exact ⟨h1, by rw [h2]⟩

/-- C1 witness: a series ending before the entry time gives no_data, and a
trade's entry is the first point at or past the entry time. -/
theorem simulate_entry_selection_witness :
    simulate ⟨2, "m", "v1", "v2", false, 0, true⟩ [⟨5, some 1⟩] 10 2 = .no_data ∧
    ((12 : ℤ) = 12 ∧ (some (3 : ℚ) = some (3 : ℚ))) := by
  have h := simulate_entry_selection ⟨2, "m", "v1", "v2", false, 0, true⟩ 10 2
  constructor
  · exact h.1 [⟨5, some 1⟩] (by decide)
  · have h2 := h.2 [⟨5, some 1⟩] [] ⟨12, some 3⟩ (by decide) (by decide)
      ExitReason.unresolved 12 3 12 (some 3) 0
      (by norm_num [simulate, entrySplit, exitScan])
    exact ⟨h2.1, h2.2.symm ▸ rfl⟩

/-- C2 counterexample: the series contains a collapsed point after entry, yet
the simulation exits take_profit (a threshold point precedes the collapsed
one), not rug with return -1.0 — refuting the claim as stated. -/
theorem simulate_collapsed_after_entry_cex :
    (∃ p ∈ [(⟨1, some 2⟩ : PricePoint), ⟨2, none⟩], p.price = none) ∧
    simulate ⟨1, "m", "v1", "v2", false, 0, true⟩
        [⟨0, some 1⟩, ⟨1, some 2⟩, ⟨2, none⟩] 0 2 =
      .trade .take_profit 0 1 1 (some 2) 1 ∧
    (simulate ⟨1, "m", "v1", "v2", false, 0, true⟩
        [⟨0, some 1⟩, ⟨1, some 2⟩, ⟨2, none⟩] 0 2).isRug = false := by
  refine ⟨⟨⟨2, none⟩, by simp, rfl⟩, ?_, ?_⟩
  · norm_num [simulate, entrySplit, exitScan]
  · norm_num [simulate, entrySplit, exitScan, TradeOutcome.isRug]

/-- C2 (amended): if after a non-collapsed entry a collapsed point occurs and
every point between entry and it is non-collapsed and strictly below the
take-profit threshold, the simulation exits at that first collapsed point with
reason rug and realized return exactly -1.0, whatever the value of
pool.rugged. -/
theorem simulate_rug_first_collapsed (pool : Pool)
    (pre mid rest : List PricePoint) (entry c : PricePoint)
    (delay : ℤ) (m ep : ℚ)
    (hpre : ∀ q ∈ pre, q.ts < pool.started_indexing_at + delay)
    (hentry : pool.started_indexing_at + delay ≤ entry.ts)
    (hep : entry.price = some ep)
    (hmid : ∀ q ∈ mid, ∃ qp, q.price = some qp ∧ qp < ep * m)
    (hc : c.price = none) :
    ∀ b : Bool,
      simulate
        ⟨pool.id, pool.target_token_mint, pool.target_token_pool_vault,
          pool.sol_pool_vault, b, pool.started_indexing_at, pool.done_indexing⟩
        (pre ++ entry :: (mid ++ c :: rest)) delay m =
      .trade .rug entry.ts ep c.ts none (-1) := by
  intro b
  simp only [simulate, hep,
    entrySplit_append (pool.started_indexing_at + delay) entry (mid ++ c :: rest)
      hentry pre hpre]
  exact exitScan_rug pool.done_indexing entry.ts ep m c rest hc mid hmid entry.ts ep

/-- C2 witness: entry at price 1, next point collapsed: exit rug with
return -1, with the rugged flag set to true. -/
theorem simulate_rug_first_collapsed_witness :
    simulate ⟨1, "m", "v1", "v2", true, 0, true⟩ [⟨0, some 1⟩, ⟨1, none⟩] 0 2 =
      .trade .rug 0 1 1 none (-1) :=
  simulate_rug_first_collapsed ⟨1, "m", "v1", "v2", false, 0, true⟩
    [] [] [] ⟨0, some 1⟩ ⟨1, none⟩ 0 2 1
    (by simp) (by decide) rfl (by simp) rfl true

/-- C3: when, after a non-collapsed entry, some point reaches
entry.price * target_multiplier and no collapsed point precedes it, the
simulation exits with reason take_profit and realized return exactly
target_multiplier - 1. -/
theorem simulate_take_profit_return (pool : Pool)
    (pre mid rest : List PricePoint) (entry tp : PricePoint)
    (delay : ℤ) (m ep tpp : ℚ)
    (hpre : ∀ q ∈ pre, q.ts < pool.started_indexing_at + delay)
    (hentry : pool.started_indexing_at + delay ≤ entry.ts)
    (hep : entry.price = some ep)
    (hmid : ∀ q ∈ mid, ∃ qp, q.price = some qp)
    (htp : tp.price = some tpp) (hge : ep * m ≤ tpp) :
    ∃ (xt : ℤ) (xp : Option ℚ),
      simulate pool (pre ++ entry :: (mid ++ tp :: rest)) delay m =
        .trade .take_profit entry.ts ep xt xp (m - 1) := by
  obtain ⟨xt, xp, hx⟩ := exitScan_tp pool.done_indexing entry.ts ep m tp rest tpp
    htp hge mid hmid entry.ts ep
  refine ⟨xt, xp, ?_⟩
  simp only [simulate, hep,
    entrySplit_append _ entry (mid ++ tp :: rest) hentry pre hpre]
  exact hx

/-- C3 witness: entry price 1, next point price 2 with multiplier 2: exit
take_profit with return exactly 1. -/
theorem simulate_take_profit_return_witness :
    ∃ (xt : ℤ) (xp : Option ℚ),
      simulate ⟨1, "m", "v1", "v2", false, 0, true⟩
        [⟨0, some 1⟩, ⟨1, some 2⟩] 0 2 = .trade .take_profit 0 1 xt xp 1 := by
  obtain ⟨xt, xp, hx⟩ := simulate_take_profit_return ⟨1, "m", "v1", "v2", false, 0, true⟩
    [] [] [] ⟨0, some 1⟩ ⟨1, some 2⟩ 0 2 1 2
    (by simp) (by decide) rfl (by simp) rfl (by norm_num)
  refine ⟨xt, xp, ?_⟩
  have h1 : (2 : ℚ) - 1 = 1 := by norm_num
  simpa [h1] using hx

/-- C4: when the series ends after a non-collapsed entry with no collapsed
point and no point reaching the take-profit threshold, a pool with
done_indexing = true exits at the last available price with reason unresolved
and return last.price / entry.price - 1, while the same series with
done_indexing = false gives no_data. -/
theorem simulate_exhausted_outcome (pool : Pool) (pre tail : List PricePoint)
    (entry : PricePoint) (delay : ℤ) (m ep : ℚ)
    (hpre : ∀ q ∈ pre, q.ts < pool.started_indexing_at + delay)
    (hentry : pool.started_indexing_at + delay ≤ entry.ts)
    (hep : entry.price = some ep)
    (htail : ∀ q ∈ tail, ∃ qp, q.price = some qp ∧ qp < ep * m) :
    (pool.done_indexing = true →
      ∃ (lastp : PricePoint) (lp : ℚ),
        (entry :: tail).getLast? = some lastp ∧ lastp.price = some lp ∧
        simulate pool (pre ++ entry :: tail) delay m =
          .trade .unresolved entry.ts ep lastp.ts (some lp) (lp / ep - 1)) ∧
    (pool.done_indexing = false →
      simulate pool (pre ++ entry :: tail) delay m = .no_data) := by
  have hsim : simulate pool (pre ++ entry :: tail) delay m =
      exitScan pool.done_indexing entry.ts ep m entry.ts ep tail := by
    simp only [simulate, entrySplit_append _ entry tail hentry pre hpre, hep]
  have hscan := exitScan_exhausted pool.done_indexing entry.ts ep m tail htail
    entry.ts ep
  obtain ⟨lastp, lp, hg, hlp, hls⟩ := lastSeen_getLast tail entry ep hep
    (fun q hq => (htail q hq).elim (fun qp hqp => ⟨qp, hqp.1⟩))
  constructor
  · intro hdone
    refine ⟨lastp, lp, hg, hlp, ?_⟩
    rw [hsim, hscan, hdone, hls]
    simp
  · intro hdone
    rw [hsim, hscan, hdone]
    simp

/-- C4 witness: the spec scenario — series ends at 1.3 times the entry price
with multiplier 2: with done_indexing true, outcome unresolved with return
13/10 / 1 - 1 (= 0.3); with done_indexing false, no_data. -/
theorem simulate_exhausted_outcome_witness :
    (∃ (lastp : PricePoint) (lp : ℚ),
      ([(⟨0, some 1⟩ : PricePoint), ⟨1, some (13/10)⟩].getLast?) = some lastp ∧
      lastp.price = some lp ∧
      simulate ⟨1, "m", "v1", "v2", false, 0, true⟩
          [⟨0, some 1⟩, ⟨1, some (13/10)⟩] 0 2 =
        .trade .unresolved 0 1 lastp.ts (some lp) (lp / 1 - 1)) ∧
    simulate ⟨1, "m", "v1", "v2", false, 0, false⟩
        [⟨0, some 1⟩, ⟨1, some (13/10)⟩] 0 2 = .no_data := by
  have htail : ∀ q ∈ [(⟨1, some (13/10)⟩ : PricePoint)],
      ∃ qp : ℚ, q.price = some qp ∧ qp < 1 * 2 := by
    intro q hq
    simp only [List.mem_singleton] at hq
    subst hq
    exact ⟨13/10, rfl, by norm_num⟩
  constructor
  · exact (simulate_exhausted_outcome ⟨1, "m", "v1", "v2", false, 0, true⟩
      [] [⟨1, some (13/10)⟩] ⟨0, some 1⟩ 0 2 1 (by simp) (by decide) rfl htail).1 rfl
  · exact (simulate_exhausted_outcome ⟨1, "m", "v1", "v2", false, 0, false⟩
      [] [⟨1, some (13/10)⟩] ⟨0, some 1⟩ 0 2 1 (by simp) (by decide) rfl htail).2 rfl

/-- C5: every pool the aggregator simulates and records in its outcomes (the
source of every aggregate statistic) has done_indexing = true; pools with
done_indexing = false never appear. -/
theorem aggregate_only_done_indexing (pools : List Pool)
    (seriesOf : ℤ → List PricePoint) (delay : ℤ) (m : ℚ) :
    ∀ po ∈ (aggregate pools seriesOf delay m).outcomes, po.1.done_indexing = true := by
  intro po hpo
  simp only [aggregate, List.mem_map] at hpo
  obtain ⟨p, hp, rfl⟩ := hpo
  exact (List.mem_filter.mp hp).2

/-- C5 witness: the single done-indexing pool recorded by the aggregator
indeed has done_indexing = true. -/
theorem aggregate_only_done_indexing_witness :
    (⟨1, "m", "v1", "v2", false, 0, true⟩ : Pool).done_indexing = true :=
  aggregate_only_done_indexing [⟨1, "m", "v1", "v2", false, 0, true⟩]
    (fun _ => []) 0 2
    (⟨1, "m", "v1", "v2", false, 0, true⟩, TradeOutcome.no_data) (by decide)

/-- C6: for a fixed pool and price series (with the nonnegative prices that
reserve ratios produce) and multipliers m1 <= m2, if the simulation with m1
ends rug or unresolved then so does the simulation with m2: raising the
multiplier never turns a non-take-profit outcome into take_profit. -/
theorem simulate_multiplier_mono (pool : Pool) (series : List PricePoint)
    (delay : ℤ) (m1 m2 : ℚ) (hm : m1 ≤ m2)
    (hpos : ∀ p ∈ series, ∀ q : ℚ, p.price = some q → 0 ≤ q)
    (h : (simulate pool series delay m1).isRugOrUnresolved = true) :
    (simulate pool series delay m2).isRugOrUnresolved = true := by
  cases hsplit : entrySplit (pool.started_indexing_at + delay) series with
  | none =>
    simp [simulate, hsplit, TradeOutcome.isRugOrUnresolved] at h
  | some er =>
    obtain ⟨entry, rest⟩ := er
    have hmem := entrySplit_mem _ series entry rest hsplit
    cases hq : entry.price with
    | none =>
      simp [simulate, hsplit, hq, TradeOutcome.isRugOrUnresolved] at h
    | some q =>
      have hq0 : 0 ≤ q := hpos entry hmem q hq
      have hmm : q * m1 ≤ q * m2 := mul_le_mul_of_nonneg_left hm hq0
      simp only [simulate, hsplit, hq] at h ⊢
      exact exitScan_mono pool.done_indexing entry.ts q m1 m2 hmm rest entry.ts q h

/-- C6 witness: a series that stays below the multiplier-2 threshold is
unresolved at multiplier 2, hence still rug-or-unresolved at multiplier 3. -/
theorem simulate_multiplier_mono_witness :
    (simulate ⟨1, "m", "v1", "v2", false, 0, true⟩
      [⟨0, some 1⟩, ⟨1, some (13/10)⟩] 0 3).isRugOrUnresolved = true :=
  simulate_multiplier_mono ⟨1, "m", "v1", "v2", false, 0, true⟩
    [⟨0, some 1⟩, ⟨1, some (13/10)⟩] 0 2 3 (by norm_num)
    (by
      intro p hp q hq
      fin_cases hp <;> simp_all <;> linarith)
    (by norm_num [simulate, entrySplit, exitScan, TradeOutcome.isRugOrUnresolved])

/-- C7: a non-positive target_multiplier is the fatal configuration error at
the call boundary, rejected before any simulation (the error carries no
outcomes); every positive target_multiplier yields a completed summary — no
per-pool error aborts the aggregate run. -/
theorem aggregateChecked_validation (pools : List Pool)
    (seriesOf : ℤ → List PricePoint) (delay : ℤ) (m : ℚ) :
    (m ≤ 0 →
      aggregateChecked pools seriesOf delay m = .error .non_positive_multiplier) ∧
    (0 < m →
      aggregateChecked pools seriesOf delay m =
        .ok (aggregate pools seriesOf delay m)) := by
  constructor
  · intro hm
    simp [aggregateChecked, hm]
  · intro hm
    simp [aggregateChecked, not_le.mpr hm]

/-- C7 witness: multiplier -1 is rejected with the configuration error;
multiplier 2 produces the summary. -/
theorem aggregateChecked_validation_witness :
    aggregateChecked [] (fun _ => []) 0 (-1) = .error .non_positive_multiplier ∧
    aggregateChecked [] (fun _ => []) 0 2 = .ok (aggregate [] (fun _ => []) 0 2) :=
  ⟨(aggregateChecked_validation [] (fun _ => []) 0 (-1)).1 (by norm_num),
   (aggregateChecked_validation [] (fun _ => []) 0 2).2 (by norm_num)⟩

/-- C8: the snapshot sequence get_pnl consumes is ordered by the engine itself
(the ORDER BY in its query): for every database, whatever the storage order,
the consumed rows are a sorted-by-ts permutation of the pool's stored rows,
and the consumed (printed) timestamp sequence is non-decreasing. -/
theorem get_pnl_consumed_sorted (db : DB) (pool : Pool) (b m : ℤ) :
    List.Sorted (fun a b : Liquidity => a.ts ≤ b.ts) (liquiditiesQuery db pool.id) ∧
    (liquiditiesQuery db pool.id).Perm
      (db.liquidities.filter (fun r => r.pool_id == pool.id)) ∧
    List.Sorted (fun a b : ℤ => a ≤ b) ((get_pnl db pool b m).1.1) := by
  refine ⟨List.sorted_insertionSort _ _, List.perm_insertionSort _ _, ?_⟩
  have hs := List.sorted_insertionSort (fun a b : Liquidity => a.ts ≤ b.ts)
    (db.liquidities.filter (fun r => r.pool_id == pool.id))
  show List.Pairwise (fun a b : ℤ => a ≤ b)
    (List.map (fun r => r.ts)
      (List.insertionSort (fun a b : Liquidity => a.ts ≤ b.ts)
        (db.liquidities.filter (fun r => r.pool_id == pool.id))))
  exact List.pairwise_map.mpr hs

/-- C9: the engine only reads the database: get_pnl and the module driver
leave the stored pools and liquidity snapshots unchanged. -/
theorem engine_read_only (db : DB) (pool : Pool) (b m : ℤ) :
    (get_pnl db pool b m).2 = db ∧ (runDriver db).2 = db := by
  refine ⟨rfl, ?_⟩
  cases h : db.pools.head? <;> simp [runDriver, get_pnl, h]

/-- C10: get_pnl ignores its strategy parameters entirely: any two pairs of
(buy_time, sell_at_multiplier) give the identical printed timestamp sequence,
the identical returned value (None), and the identical final state. -/
theorem get_pnl_ignores_strategy_params (db : DB) (pool : Pool)
    (b1 m1 b2 m2 : ℤ) :
    get_pnl db pool b1 m1 = get_pnl db pool b2 m2 ∧
    (get_pnl db pool b1 m1).1.2 = none :=
  ⟨rfl, rfl⟩
